import Mathlib

/-!
Shallow embedding of the `hypsys`/`phypsys` driver programs
(src/miniapps/hypsys/hypsys.cpp, src/miniapps/hypsys/phypsys.cpp) and of the
MCL evolution-operator algebra they drive.  Real values are modelled as ℚ.
State vectors are lists of rationals; the external ODE integrator is an
abstract step function `(u, t, dt) ↦ (u', t')`.
-/

namespace HypSys

/-- The configuration structure filled by the driver (hypsys.cpp lines 5-18):
problem identifier, setup identifier, polynomial order, final time, time
step, ODE solver identifier, visualization interval, output precision. -/
structure Configuration where
  ProblemNum : Int
  ConfigNum : Int
  order : Int
  tFinal : ℚ
  dt : ℚ
  odeSolverType : Int
  VisSteps : Nat
  precision : Nat
deriving DecidableEq

/-- Default configuration values set before option parsing
(hypsys.cpp lines 6-18). -/
def defaultConfig : Configuration :=
  ⟨0, 1, 3, 1, 1/1000, 3, 100, 8⟩

/-- The evolution scheme enumeration (help text, hypsys.cpp lines 41-43:
0 - Standard Finite Element Approximation, 1 - Monolithic Convex Limiting). -/
inductive EvolutionScheme
  | Standard
  | MCL
deriving DecidableEq

/-- Integer value of an evolution scheme, as stored through the
`(int*)(&scheme)` option slot (hypsys.cpp line 41). -/
def EvolutionScheme.toInt : EvolutionScheme → Int
  | .Standard => 0
  | .MCL => 1

/-- The scheme value after option parsing: the command-line value when one is
given, otherwise the initial value `Standard` (hypsys.cpp line 16). -/
def parsedScheme (cli : Option Int) : Int :=
  cli.getD EvolutionScheme.Standard.toInt

/-- Modelled from the spec: the Evolution Operator (not under src/) dispatches
on the scheme value and applies the Monolithic Convex Limiting scheme iff the
value is 1 (MCL); 0 selects the Standard scheme (§6: "evolution scheme
(Standard=0, MCL=1)"). -/
def appliesMCL (s : Int) : Bool := s == EvolutionScheme.MCL.toInt

/-- The ODE solvers the driver can construct (hypsys.cpp lines 54-62). -/
inductive ODESolverKind
  | ForwardEuler
  | RK2SSP
  | RK3SSP
deriving DecidableEq

/-- The hyperbolic systems the driver can construct (hypsys.cpp lines 102-108). -/
inductive ProblemKind
  | Advection
deriving DecidableEq

/-- The `switch (config.odeSolverType)` of hypsys.cpp lines 54-62:
1 - Forward Euler, 2 - RK2 SSP, 3 - RK3 SSP, anything else unrecognized. -/
def selectODESolver (s : Int) : Option ODESolverKind :=
  if s = 1 then some .ForwardEuler
  else if s = 2 then some .RK2SSP
  else if s = 3 then some .RK3SSP
  else none

/-- The `switch (config.ProblemNum)` of hypsys.cpp lines 102-108:
0 - Advection, anything else unrecognized. -/
def selectProblem (p : Int) : Option ProblemKind :=
  if p = 0 then some .Advection else none

/-- Result of the pre-loop setup phase: the constructed solver and problem
objects, and whether the pseudo-time-stepping warning was emitted
(hypsys.cpp lines 110-113). -/
structure SetupResult where
  solver : ODESolverKind
  problem : ProblemKind
  warned : Bool
deriving DecidableEq

/-- The setup phase of `main` in dispatch order: the ODE-solver switch
(lines 54-62, `return -1` on an unknown identifier), then the problem switch
(lines 102-108, `return -1` on an unknown identifier), then the advisory
warning `config.odeSolverType != 1 && hyp->SteadyState` (lines 110-113).
`Except.error c` models `return c` from `main`. -/
def mainSetup (p s : Int) (steady : Bool) : Except Int SetupResult :=
  match selectODESolver s with
  | none => .error (-1)
  | some slv =>
    match selectProblem p with
    | none => .error (-1)
    | some prob => .ok ⟨slv, prob, decide (s ≠ 1) && steady⟩

/-- Mass-weighted inner product `LumpedMassMat * u` (operator* of mfem
vectors): the sum of pointwise products. -/
def dot (a b : List ℚ) : ℚ := (List.zipWith (fun x y => x * y) a b).sum

/-- Modelled from the spec: a mass-weighted norm of a vector (§4.3 names no
concrete norm, only "a mass-weighted norm"); modelled as the lumped-mass
weighted sum of absolute values. -/
def massNorm (m v : List ℚ) : ℚ := (List.zipWith (fun a b => a * |b|) m v).sum

/-- The steady-state convergence tolerance `tol = 1.e-12`
(hypsys.cpp line 149). -/
def convTol : ℚ := 1 / 10 ^ 12

/-- The termination slack factor `1.e-8` in
`done = (t >= tFinal - 1.e-8*dt)` (hypsys.cpp line 156). -/
def doneEps : ℚ := 1 / 10 ^ 8

/-- Modelled from the spec: `FE_Evolution::ConvergenceCheck(dt, tolerance,
state)` is not under src/; per §4.3 it "computes a mass-weighted norm of
`(state − uOld)/dt`, updates `uOld ← state`, returns the scalar residual".
Result: (residual, updated uOld). -/
def ConvergenceCheck (m : List ℚ) (dt tolerance : ℚ) (uOld u : List ℚ) :
    ℚ × List ℚ :=
  (massNorm m (List.zipWith (fun a b => a - b) u uOld) / dt, u)

/-- The state threaded through the time loop of `main`: the solution vector
`u`, simulation time `t`, step counter `ti`, the evolution operator's
previous-state snapshot `uOld`, and the last computed residual `res`. -/
structure LoopState where
  u : List ℚ
  t : ℚ
  ti : Nat
  uOld : List ℚ
  res : ℚ
deriving DecidableEq

/-- The step size chosen at the top of each loop iteration:
`dt = min(config.dt, config.tFinal - t)` (hypsys.cpp line 152). -/
def dtUsed (cfg : Configuration) (t : ℚ) : ℚ := min cfg.dt (cfg.tFinal - t)

/-- Loop-state initialization before the time loop: `u = hyp->u0`
(line 116), `t = 0` (line 149), `ti = 0` (line 150), and in steady-state
mode `uOld` sized to the problem size and set to zero (lines 144-145). -/
def initLoopState (u0 : List ℚ) : LoopState :=
  ⟨u0, 0, 0, List.replicate u0.length 0, 0⟩

/-- One iteration of the time loop (hypsys.cpp lines 150-181): choose
`dt = min(config.dt, tFinal - t)`, call `odeSolver->Step(u, t, dt)`
(abstracted as `step`), increment `ti`, set
`done = (t >= tFinal - 1.e-8*config.dt)`; in steady-state mode run the
convergence check and, when the residual is below `tol`, set `done = true`
and assign `u = evol.uOld`.  Returns the updated state and the `done` flag. -/
def loopBody (cfg : Configuration) (steady : Bool)
    (step : List ℚ → ℚ → ℚ → List ℚ × ℚ) (m : List ℚ) (s : LoopState) :
    LoopState × Bool :=
  let dt := dtUsed cfg s.t
  let u1 := (step s.u s.t dt).1
  let t1 := (step s.u s.t dt).2
  let done1 := decide (cfg.tFinal - doneEps * cfg.dt ≤ t1)
  match steady with
  | false => (⟨u1, t1, s.ti + 1, s.uOld, s.res⟩, done1)
  | true =>
    let cc := ConvergenceCheck m dt convTol s.uOld u1
    if cc.1 < convTol then (⟨cc.2, t1, s.ti + 1, cc.2, cc.1⟩, true)
    else (⟨u1, t1, s.ti + 1, cc.2, cc.1⟩, done1)

/-- The time loop `for (int ti = 0; !done;)` (hypsys.cpp lines 150-181),
with an explicit iteration budget: runs `loopBody` until the `done` flag is
set or the budget is exhausted. -/
def timeLoop (cfg : Configuration) (steady : Bool)
    (step : List ℚ → ℚ → ℚ → List ℚ × ℚ) (m : List ℚ) :
    Nat → LoopState → LoopState
  | 0, s => s
  | Nat.succ fuel, s =>
    let b := loopBody cfg steady step m s
    if b.2 then b.1 else timeLoop cfg steady step m fuel b.1

/-- The per-run flags of the constructed `HyperbolicSystem`:
`SteadyState`, `SolutionKnown`, `FileOutput`. -/
structure Flags where
  steadyState : Bool
  solutionKnown : Bool
  fileOutput : Bool
deriving DecidableEq

/-- The observable outcome of the post-loop phase of `main`. -/
structure RunReport where
  massDrift : ℚ
  errorsReported : Bool
  finalSaved : Bool
  exitCode : Int
deriving DecidableEq

/-- The post-loop phase of `main` (hypsys.cpp lines 183-203): report
`abs(InitialMass - LumpedMassMat * u) / DomainSize` with
`DomainSize = LumpedMassMat.Sum()`, compute and write the error norms only
under `hyp->SolutionKnown && hyp->FileOutput` (line 187), save the final
solution under `hyp->FileOutput` (line 194), and `return 0` (line 203). -/
def finishRun (solutionKnown fileOutput : Bool) (m u0 uF : List ℚ) :
    RunReport :=
  ⟨|dot m u0 - dot m uF| / m.sum, solutionKnown && fileOutput, fileOutput, 0⟩

/-- The whole driver `main` after option parsing: the setup phase (solver
switch, problem switch, advisory warning), then — only when setup succeeded —
the time loop from the initial state, then the post-loop reporting phase.
`Except.error c` models an early `return c`; `.ok r` models a completed run,
which reaches `return 0`. -/
def runProgram (cfg : Configuration) (flags : Flags)
    (step : List ℚ → ℚ → ℚ → List ℚ × ℚ) (m u0 : List ℚ) (fuel : Nat) :
    Except Int RunReport :=
  match mainSetup cfg.ProblemNum cfg.odeSolverType flags.steadyState with
  | .error c => .error c
  | .ok _ =>
    .ok (finishRun flags.solutionKnown flags.fileOutput m u0
          ((timeLoop cfg flags.steadyState step m fuel (initLoopState u0)).u))

/-- Program-result predicate: `true` iff `main` ran to completion
(reached `return 0`) rather than exiting early. -/
def exceptOk : Except Int RunReport → Bool
  | .ok _ => true
  | .error _ => false

/-- The time field produced by one loop iteration is whatever the integrator
step returned, in every branch. -/
theorem loopBody_t_eq (cfg : Configuration) (steady : Bool)
    (step : List ℚ → ℚ → ℚ → List ℚ × ℚ) (m : List ℚ) (s : LoopState) :
    ((loopBody cfg steady step m s).1).t = (step s.u s.t (dtUsed cfg s.t)).2 := by
  unfold loopBody
  cases steady
  · rfl
  · dsimp only
    split <;> rfl

/-- If the updated time has reached the `tFinal - 1.e-8*config.dt` threshold,
the `done` flag is set in every branch. -/
theorem loopBody_done (cfg : Configuration) (steady : Bool)
    (step : List ℚ → ℚ → ℚ → List ℚ × ℚ) (m : List ℚ) (s : LoopState)
    (h : cfg.tFinal - doneEps * cfg.dt ≤ (step s.u s.t (dtUsed cfg s.t)).2) :
    (loopBody cfg steady step m s).2 = true := by
  unfold loopBody
  cases steady
  · exact decide_eq_true h
  · dsimp only
    split
    · rfl
    · exact decide_eq_true h

/-- The loop returns the current iteration's state as soon as the `done`
flag is set. -/
theorem timeLoop_exit (cfg : Configuration) (steady : Bool)
    (step : List ℚ → ℚ → ℚ → List ℚ × ℚ) (m : List ℚ) (fuel : Nat)
    (s : LoopState) (h : (loopBody cfg steady step m s).2 = true) :
    timeLoop cfg steady step m (fuel + 1) s = (loopBody cfg steady step m s).1 := by
  unfold timeLoop
  simp [h]

/-- In steady-state mode the residual recorded by one loop iteration is the
value returned by the convergence check, in both branches. -/
theorem loopBody_res_eq (cfg : Configuration)
    (step : List ℚ → ℚ → ℚ → List ℚ × ℚ) (m : List ℚ) (s : LoopState) :
    ((loopBody cfg true step m s).1).res
      = (ConvergenceCheck m (dtUsed cfg s.t) convTol s.uOld
          (step s.u s.t (dtUsed cfg s.t)).1).1 := by
  unfold loopBody
  dsimp only
  split <;> rfl

/-- Subtracting a zero vector of matching length is the identity. -/
theorem zipWith_sub_replicate_zero (v : List ℚ) (k : Nat) (h : v.length = k) :
    List.zipWith (fun a b => a - b) v (List.replicate k 0) = v := by
  induction v generalizing k with
  | nil => simp
  | cons a as ih =>
    cases k with
    | zero => simp at h
    | succ k =>
      simp only [List.replicate_succ, List.zipWith_cons_cons, sub_zero]
      rw [ih k (by simpa using h)]

/-- A concrete integrator step used for evaluating the model: keep the state,
advance the time by the full step. -/
def cexStep : List ℚ → ℚ → ℚ → List ℚ × ℚ := fun u t d => (u, t + d)

/-- A concrete configuration reaching its final time in one step. -/
def cexCfg : Configuration := ⟨0, 1, 3, 1/1000, 1/1000, 1, 100, 8⟩

/-- C1: in steady-state-seeking mode, if the convergence check of an
iteration returns a residual strictly below the tolerance `1e-12`, the loop's
`done` flag is set in that iteration, the time loop returns that iteration's
state, and the final solution vector equals the stored snapshot `uOld`
(hypsys.cpp lines 158-166, phypsys.cpp lines 172-180). -/
theorem steady_convergence_assigns_uOld (cfg : Configuration)
    (step : List ℚ → ℚ → ℚ → List ℚ × ℚ) (m : List ℚ) (s : LoopState)
    (fuel : Nat)
    (h : (ConvergenceCheck m (dtUsed cfg s.t) convTol s.uOld
            (step s.u s.t (dtUsed cfg s.t)).1).1 < convTol) :
    (loopBody cfg true step m s).2 = true
    ∧ timeLoop cfg true step m (fuel + 1) s = (loopBody cfg true step m s).1
    ∧ ((loopBody cfg true step m s).1).u = ((loopBody cfg true step m s).1).uOld := by
  have hb : loopBody cfg true step m s
      = (⟨(ConvergenceCheck m (dtUsed cfg s.t) convTol s.uOld
            (step s.u s.t (dtUsed cfg s.t)).1).2,
          (step s.u s.t (dtUsed cfg s.t)).2, s.ti + 1,
          (ConvergenceCheck m (dtUsed cfg s.t) convTol s.uOld
            (step s.u s.t (dtUsed cfg s.t)).1).2,
          (ConvergenceCheck m (dtUsed cfg s.t) convTol s.uOld
            (step s.u s.t (dtUsed cfg s.t)).1).1⟩, true) := by
    unfold loopBody
    dsimp only
    rw [if_pos h]
  refine ⟨by rw [hb], ?_, by rw [hb]⟩
  exact timeLoop_exit cfg true step m fuel s (by rw [hb])

/-- On a stationary state the modelled convergence check returns residual
zero, which is below the tolerance. -/
theorem cexResidualSmall :
    (ConvergenceCheck [(1 : ℚ)] (dtUsed cexCfg (0 : ℚ)) convTol [(2 : ℚ)]
        (cexStep [(2 : ℚ)] 0 (dtUsed cexCfg 0)).1).1 < convTol := by
  norm_num [ConvergenceCheck, massNorm, cexStep, convTol]

/-- Witness for C1 at a concrete input: the state is already stationary, so
the residual is zero. -/
theorem steady_convergence_assigns_uOld_witness :
    (ConvergenceCheck [(1 : ℚ)] (dtUsed cexCfg (0 : ℚ)) convTol [(2 : ℚ)]
        (cexStep [(2 : ℚ)] 0 (dtUsed cexCfg 0)).1).1 < convTol
    ∧ ((loopBody cexCfg true cexStep [(1 : ℚ)]
          ⟨[(2 : ℚ)], 0, 0, [(2 : ℚ)], 0⟩).1).u
      = ((loopBody cexCfg true cexStep [(1 : ℚ)]
          ⟨[(2 : ℚ)], 0, 0, [(2 : ℚ)], 0⟩).1).uOld := by
  refine ⟨cexResidualSmall, ?_⟩
  exact (steady_convergence_assigns_uOld cexCfg cexStep [(1 : ℚ)]
    ⟨[(2 : ℚ)], 0, 0, [(2 : ℚ)], 0⟩ 0 cexResidualSmall).2.2

/-- C8: every loop iteration passes `min(config.dt, tFinal - t)` to the
integrator (hypsys.cpp line 152); consequently, for any integrator that
advances `t` by at most the given `dt`, the updated time never exceeds
`tFinal`; and once the updated time reaches `tFinal - 1e-8*config.dt` the
loop terminates with that iteration's state (line 156). -/
theorem loop_dt_capped_and_terminates (cfg : Configuration) (steady : Bool)
    (step : List ℚ → ℚ → ℚ → List ℚ × ℚ) (m : List ℚ) (s : LoopState)
    (fuel : Nat)
    (hstep : ∀ u t d, (step u t d).2 ≤ t + d) :
    dtUsed cfg s.t = min cfg.dt (cfg.tFinal - s.t)
    ∧ ((loopBody cfg steady step m s).1).t ≤ cfg.tFinal
    ∧ (cfg.tFinal - doneEps * cfg.dt ≤ ((loopBody cfg steady step m s).1).t →
        timeLoop cfg steady step m (fuel + 1) s = (loopBody cfg steady step m s).1) := by
  refine ⟨rfl, ?_, ?_⟩
  · rw [loopBody_t_eq]
    have h1 := hstep s.u s.t (dtUsed cfg s.t)
    have h2 : dtUsed cfg s.t ≤ cfg.tFinal - s.t := min_le_right _ _
    linarith
  · intro h
    rw [loopBody_t_eq] at h
    exact timeLoop_exit cfg steady step m fuel s
      (loopBody_done cfg steady step m s h)

/-- Witness for C8 at a concrete input: the step advances time by exactly
the given step size. -/
theorem loop_dt_capped_and_terminates_witness :
    dtUsed cexCfg ((0 : ℚ)) = min cexCfg.dt (cexCfg.tFinal - (0 : ℚ))
    ∧ ((loopBody cexCfg false cexStep [(1 : ℚ)]
          ⟨[(1 : ℚ)], 0, 0, [], 0⟩).1).t ≤ cexCfg.tFinal := by
  have h := loop_dt_capped_and_terminates cexCfg false cexStep [(1 : ℚ)]
    ⟨[(1 : ℚ)], 0, 0, [], 0⟩ 0 (fun u t d => le_of_eq rfl)
  exact ⟨h.1, h.2.1⟩

/-- C10: in steady-state mode `uOld` is sized to the problem size and
initialized to zero before the time loop (hypsys.cpp lines 142-146), not to
the initial condition; hence the first convergence check measures the state
against the zero vector: its residual is the mass-weighted norm of the
post-step state divided by `dt`, and whenever that norm is at least
`tol * dt` (in particular for a stationary nonzero initial condition) the
steady branch does not report immediate convergence. -/
theorem uOld_initialized_zero_first_residual (cfg : Configuration)
    (step : List ℚ → ℚ → ℚ → List ℚ × ℚ) (m : List ℚ) (u0 : List ℚ)
    (hlen : ((step u0 0 (dtUsed cfg 0)).1).length = u0.length) :
    (initLoopState u0).uOld = List.replicate u0.length 0
    ∧ ((loopBody cfg true step m (initLoopState u0)).1).res
        = massNorm m (step u0 0 (dtUsed cfg 0)).1 / dtUsed cfg 0
    ∧ (0 < dtUsed cfg 0 →
        convTol * dtUsed cfg 0 ≤ massNorm m (step u0 0 (dtUsed cfg 0)).1 →
        ¬ ((loopBody cfg true step m (initLoopState u0)).1).res < convTol) := by
  have hres : ((loopBody cfg true step m (initLoopState u0)).1).res
      = massNorm m (step u0 0 (dtUsed cfg 0)).1 / dtUsed cfg 0 := by
    rw [loopBody_res_eq]
    show (ConvergenceCheck m (dtUsed cfg 0) convTol (List.replicate u0.length 0)
        (step u0 0 (dtUsed cfg 0)).1).1 = _
    unfold ConvergenceCheck
    rw [zipWith_sub_replicate_zero _ _ hlen]
  refine ⟨rfl, hres, ?_⟩
  intro hdt hbig
  rw [hres]
  exact not_lt.mpr ((le_div_iff₀ hdt).mpr hbig)

/-- The one-step dt of the concrete configuration is positive. -/
theorem cexDtPos : (0 : ℚ) < dtUsed cexCfg 0 := by
  norm_num [dtUsed, cexCfg]

/-- On the concrete stationary nonzero state, the mass-weighted norm of the
post-step state is at least `tol * dt`. -/
theorem cexNormBig :
    convTol * dtUsed cexCfg 0
      ≤ massNorm [(1 : ℚ)] (cexStep [(1 : ℚ)] 0 (dtUsed cexCfg 0)).1 := by
  norm_num [convTol, dtUsed, cexCfg, massNorm, cexStep]

/-- Witness for C10 at a concrete input: a stationary step on a nonzero
state still yields a first residual at or above the tolerance. -/
theorem uOld_initialized_zero_first_residual_witness :
    ((cexStep [(1 : ℚ)] 0 (dtUsed cexCfg 0)).1).length = [(1 : ℚ)].length
    ∧ ¬ ((loopBody cexCfg true cexStep [(1 : ℚ)]
          (initLoopState [(1 : ℚ)])).1).res < convTol := by
  refine ⟨rfl, ?_⟩
  exact (uOld_initialized_zero_first_residual cexCfg cexStep [(1 : ℚ)]
    [(1 : ℚ)] rfl).2.2 cexDtPos cexNormBig

/-- Observer extracting whether error norms were reported, when the run
completed. -/
def reportedErrors : Except Int RunReport → Option Bool
  | .ok r => some r.errorsReported
  | .error _ => none

/-- A configuration with an unrecognized problem identifier and an
unrecognized ODE-solver identifier. -/
def cfgBad : Configuration := ⟨7, 1, 3, 1, 1/1000, 9, 100, 8⟩

/-- A configuration selecting the SSP RK2 integrator, reaching its final
time in one step. -/
def cfgRK2 : Configuration := ⟨0, 1, 3, 1/1000, 1/1000, 2, 100, 8⟩

/-- Flags of a steady-state-seeking problem without file output. -/
def steadyFlags : Flags := ⟨true, false, false⟩

/-- Flags declaring a known solution but no file output. -/
def cexFlags : Flags := ⟨false, true, false⟩

/-- Flags declaring a known solution and file output. -/
def cexFlagsOut : Flags := ⟨false, true, true⟩

/-- C2: an unrecognized ODE-solver identifier (lines 54-62) or an
unrecognized problem identifier (lines 102-108) makes `main` return `-1`
(a non-zero status) without reaching the time loop — `runProgram` yields
`Except.error (-1)` independently of the integrator, the state and the
iteration budget; for recognized identifiers the corresponding solver and
problem objects are constructed. -/
theorem unknown_identifier_exits_nonzero (cfg : Configuration) (flags : Flags)
    (step : List ℚ → ℚ → ℚ → List ℚ × ℚ) (m u0 : List ℚ) (fuel : Nat) :
    ((¬(cfg.odeSolverType = 1 ∨ cfg.odeSolverType = 2 ∨ cfg.odeSolverType = 3)
        ∨ cfg.ProblemNum ≠ 0) →
      runProgram cfg flags step m u0 fuel = .error (-1) ∧ (-1 : Int) ≠ 0)
    ∧ (cfg.ProblemNum = 0 →
        (cfg.odeSolverType = 1 →
          mainSetup cfg.ProblemNum cfg.odeSolverType flags.steadyState
            = .ok ⟨.ForwardEuler, .Advection, false⟩)
        ∧ (cfg.odeSolverType = 2 →
          mainSetup cfg.ProblemNum cfg.odeSolverType flags.steadyState
            = .ok ⟨.RK2SSP, .Advection, flags.steadyState⟩)
        ∧ (cfg.odeSolverType = 3 →
          mainSetup cfg.ProblemNum cfg.odeSolverType flags.steadyState
            = .ok ⟨.RK3SSP, .Advection, flags.steadyState⟩)) := by
  constructor
  · rintro (hbad | hp)
    · push_neg at hbad
      obtain ⟨h1, h2, h3⟩ := hbad
      refine ⟨?_, by decide⟩
      unfold runProgram mainSetup selectODESolver
      rw [if_neg h1, if_neg h2, if_neg h3]
    · refine ⟨?_, by decide⟩
      unfold runProgram mainSetup
      rcases hsel : selectODESolver cfg.odeSolverType with _ | slv
      · rfl
      · unfold selectProblem
        rw [if_neg hp]
  · intro hp
    refine ⟨fun h1 => ?_, fun h2 => ?_, fun h3 => ?_⟩
    · simp [mainSetup, selectODESolver, selectProblem, hp, h1]
    · simp [mainSetup, selectODESolver, selectProblem, hp, h2]
    · simp [mainSetup, selectODESolver, selectProblem, hp, h3]

/-- Witness for C2 at a concrete input: problem 7 and solver 9 are both
unrecognized, so `main` exits with `-1`. -/
theorem unknown_identifier_exits_nonzero_witness :
    runProgram cfgBad cexFlags cexStep [] [] 0 = .error (-1)
    ∧ (-1 : Int) ≠ 0 :=
  (unknown_identifier_exits_nonzero cfgBad cexFlags cexStep [] [] 0).1
    (by decide)

/-- C5 counterexample: a completed run whose Physics Contract declares a
known solution (`SolutionKnown = true`) but no file output reports no error
norms — hypsys.cpp line 187 guards `ComputeErrors`/`WriteErrors` behind
`hyp->SolutionKnown && hyp->FileOutput`, not `SolutionKnown` alone. -/
theorem solutionKnown_without_fileOutput_no_error_report :
    cexFlags.solutionKnown = true
    ∧ exceptOk (runProgram cexCfg cexFlags cexStep [(1 : ℚ)] [(1 : ℚ)] 5) = true
    ∧ reportedErrors (runProgram cexCfg cexFlags cexStep [(1 : ℚ)] [(1 : ℚ)] 5)
        = some false :=
  ⟨rfl, rfl, rfl⟩

/-- C5 (amended): in every completed run, the error norms are reported iff
the Physics Contract declares both a known solution and file output
(hypsys.cpp line 187, phypsys.cpp line 213). -/
theorem errors_reported_iff_known_and_fileOutput (cfg : Configuration)
    (flags : Flags) (step : List ℚ → ℚ → ℚ → List ℚ × ℚ) (m u0 : List ℚ)
    (fuel : Nat) (r : RunReport)
    (h : runProgram cfg flags step m u0 fuel = .ok r) :
    r.errorsReported = (flags.solutionKnown && flags.fileOutput) := by
  unfold runProgram at h
  rcases hms : mainSetup cfg.ProblemNum cfg.odeSolverType flags.steadyState
    with c | v
  · rw [hms] at h
    exact absurd h (by simp)
  · rw [hms] at h
    cases h
    rfl

/-- Witness for C5 at a concrete input: with both flags set, the completed
run reports the error norms. -/
theorem errors_reported_iff_known_and_fileOutput_witness :
    (finishRun cexFlagsOut.solutionKnown cexFlagsOut.fileOutput
        [(1 : ℚ)] [(1 : ℚ)]
        ((timeLoop cexCfg cexFlagsOut.steadyState cexStep [(1 : ℚ)] 5
          (initLoopState [(1 : ℚ)])).u)).errorsReported
      = (cexFlagsOut.solutionKnown && cexFlagsOut.fileOutput) :=
  errors_reported_iff_known_and_fileOutput cexCfg cexFlagsOut cexStep
    [(1 : ℚ)] [(1 : ℚ)] 5 _ rfl

/-- C6: a recognized non-Forward-Euler integrator (SSP RK2 or SSP RK3)
together with a steady-state-seeking problem passes setup with the warning
flag set (hypsys.cpp lines 110-113 emit `MFEM_WARNING` and continue), and
the run proceeds into the time loop and completes — the combination is never
a fatal error. -/
theorem steady_nonEuler_warns_and_proceeds (cfg : Configuration)
    (flags : Flags) (step : List ℚ → ℚ → ℚ → List ℚ × ℚ) (m u0 : List ℚ)
    (fuel : Nat)
    (hs : cfg.odeSolverType = 2 ∨ cfg.odeSolverType = 3)
    (hp : cfg.ProblemNum = 0) (hst : flags.steadyState = true) :
    (mainSetup cfg.ProblemNum cfg.odeSolverType flags.steadyState
        = .ok ⟨.RK2SSP, .Advection, true⟩
      ∨ mainSetup cfg.ProblemNum cfg.odeSolverType flags.steadyState
        = .ok ⟨.RK3SSP, .Advection, true⟩)
    ∧ exceptOk (runProgram cfg flags step m u0 fuel) = true := by
  rcases hs with h2 | h3
  · have hms : mainSetup cfg.ProblemNum cfg.odeSolverType flags.steadyState
        = .ok ⟨.RK2SSP, .Advection, true⟩ := by
      simp [mainSetup, selectODESolver, selectProblem, hp, h2, hst]
    exact ⟨Or.inl hms, by simp [runProgram, hms, exceptOk]⟩
  · have hms : mainSetup cfg.ProblemNum cfg.odeSolverType flags.steadyState
        = .ok ⟨.RK3SSP, .Advection, true⟩ := by
      simp [mainSetup, selectODESolver, selectProblem, hp, h3, hst]
    exact ⟨Or.inr hms, by simp [runProgram, hms, exceptOk]⟩

/-- Witness for C6 at a concrete input: SSP RK2 with a steady-state-seeking
problem warns and completes. -/
theorem steady_nonEuler_warns_and_proceeds_witness :
    (mainSetup cfgRK2.ProblemNum cfgRK2.odeSolverType steadyFlags.steadyState
        = .ok ⟨.RK2SSP, .Advection, true⟩
      ∨ mainSetup cfgRK2.ProblemNum cfgRK2.odeSolverType
          steadyFlags.steadyState = .ok ⟨.RK3SSP, .Advection, true⟩)
    ∧ exceptOk (runProgram cfgRK2 steadyFlags cexStep [(1 : ℚ)] [(1 : ℚ)] 5)
        = true :=
  steady_nonEuler_warns_and_proceeds cfgRK2 steadyFlags cexStep
    [(1 : ℚ)] [(1 : ℚ)] 5 (Or.inl rfl) rfl rfl

/-- C7: every completed run reports the relative mass drift
`|InitialMass - FinalMass| / DomainSize` — initial and final masses as the
lumped-mass inner product with the initial and final states, domain size as
the sum of the lumped masses — and reaches `return 0`; its magnitude never
alters control flow (hypsys.cpp lines 183-185, 203). -/
theorem mass_drift_reported_exit_zero (cfg : Configuration) (flags : Flags)
    (step : List ℚ → ℚ → ℚ → List ℚ × ℚ) (m u0 : List ℚ) (fuel : Nat)
    (r : RunReport)
    (h : runProgram cfg flags step m u0 fuel = .ok r) :
    r.exitCode = 0
    ∧ r.massDrift
        = |dot m u0 - dot m ((timeLoop cfg flags.steadyState step m fuel
            (initLoopState u0)).u)| / m.sum := by
  unfold runProgram at h
  rcases hms : mainSetup cfg.ProblemNum cfg.odeSolverType flags.steadyState
    with c | v
  · rw [hms] at h
    exact absurd h (by simp)
  · rw [hms] at h
    cases h
    exact ⟨rfl, rfl⟩

/-- Witness for C7 at a concrete input. -/
theorem mass_drift_reported_exit_zero_witness :
    (finishRun cexFlags.solutionKnown cexFlags.fileOutput [(1 : ℚ)] [(1 : ℚ)]
        ((timeLoop cexCfg cexFlags.steadyState cexStep [(1 : ℚ)] 5
          (initLoopState [(1 : ℚ)])).u)).exitCode = 0
    ∧ (finishRun cexFlags.solutionKnown cexFlags.fileOutput [(1 : ℚ)]
        [(1 : ℚ)]
        ((timeLoop cexCfg cexFlags.steadyState cexStep [(1 : ℚ)] 5
          (initLoopState [(1 : ℚ)])).u)).massDrift
      = |dot [(1 : ℚ)] [(1 : ℚ)] - dot [(1 : ℚ)]
          ((timeLoop cexCfg cexFlags.steadyState cexStep [(1 : ℚ)] 5
            (initLoopState [(1 : ℚ)])).u)| / [(1 : ℚ)].sum :=
  mass_drift_reported_exit_zero cexCfg cexFlags cexStep [(1 : ℚ)] [(1 : ℚ)]
    5 _ rfl

/-- C9: when no evolution-scheme option is supplied, the parsed scheme value
is the initializer `Standard` (= 0, hypsys.cpp line 16), for which the
evolution operator does not apply MCL; MCL is applied exactly when the
option value 1 is supplied (hypsys.cpp lines 41-43). -/
theorem default_scheme_is_standard :
    parsedScheme none = 0
    ∧ appliesMCL (parsedScheme none) = false
    ∧ appliesMCL (parsedScheme (some 1)) = true
    ∧ ∀ v : Int, appliesMCL (parsedScheme (some v)) = true → v = 1 := by
  refine ⟨rfl, rfl, rfl, ?_⟩
  intro v h
  unfold appliesMCL parsedScheme EvolutionScheme.toInt at h
  exact eq_of_beq h

/-- Witness for C9 at the concrete scheme value 1. -/
theorem default_scheme_is_standard_witness :
    appliesMCL (parsedScheme (some 1)) = true ∧ (1 : Int) = 1 :=
  ⟨default_scheme_is_standard.2.2.1,
    default_scheme_is_standard.2.2.2 1 default_scheme_is_standard.2.2.1⟩

/-- Modelled from the spec: the MCL evolution operator is not under src/;
per §4.3 step 3 the antidiffusive flux is "computed once per unordered pair"
and applied "with opposite sign to each endpoint", which enforces
`F_ij = -F_ji` by construction. -/
def antidiffFlux {n : Nat} (raw : Fin n → Fin n → ℚ) (i j : Fin n) : ℚ :=
  if i < j then raw i j else if j < i then -raw j i else 0

/-- The constructed antidiffusive flux is antisymmetric. -/
theorem antidiffFlux_antisymm {n : Nat} (raw : Fin n → Fin n → ℚ)
    (i j : Fin n) : antidiffFlux raw i j = -antidiffFlux raw j i := by
  unfold antidiffFlux
  rcases lt_trichotomy i j with h | h | h
  · simp [h, lt_asymm h]
  · subst h
    simp
  · simp [h, lt_asymm h]

/-- Modelled from the spec: §4.3 step 4's endpoint coefficient — the largest
`α ∈ [0,1]` such that `ubar + α·f` stays inside `[lo, hi]`, in closed form
per flux sign. -/
def alphaEndpoint (lo hi ubar f : ℚ) : ℚ :=
  if 0 < f then min 1 ((hi - ubar) / f)
  else if f < 0 then min 1 ((lo - ubar) / f)
  else 1

/-- The endpoint coefficient is nonnegative whenever the bar state lies
within the endpoint's bounds. -/
theorem alphaEndpoint_nonneg {lo hi ubar f : ℚ} (h1 : lo ≤ ubar)
    (h2 : ubar ≤ hi) : 0 ≤ alphaEndpoint lo hi ubar f := by
  unfold alphaEndpoint
  split
  · rename_i hf
    exact le_min zero_le_one (div_nonneg (by linarith) (le_of_lt hf))
  · split
    · rename_i hf0 hfneg
      refine le_min zero_le_one ?_
      rw [div_nonneg_iff]
      exact Or.inr ⟨by linarith, le_of_lt hfneg⟩
    · exact zero_le_one

/-- Any coefficient between 0 and the endpoint coefficient keeps the bar
state plus the scaled flux within the endpoint's bounds. -/
theorem alphaEndpoint_keeps {lo hi ubar f a : ℚ} (h1 : lo ≤ ubar)
    (h2 : ubar ≤ hi) (ha0 : 0 ≤ a) (ha : a ≤ alphaEndpoint lo hi ubar f) :
    lo ≤ ubar + a * f ∧ ubar + a * f ≤ hi := by
  unfold alphaEndpoint at ha
  rcases lt_trichotomy 0 f with hf | hf | hf
  · rw [if_pos hf] at ha
    have h3 : a ≤ (hi - ubar) / f := le_trans ha (min_le_right _ _)
    have h4 : a * f ≤ hi - ubar := (le_div_iff₀ hf).mp h3
    have h5 : 0 ≤ a * f := mul_nonneg ha0 (le_of_lt hf)
    constructor <;> linarith
  · rw [← hf]
    constructor <;> simp <;> linarith
  · rw [if_neg (not_lt.mpr (le_of_lt hf)), if_pos hf] at ha
    have h3 : a ≤ (lo - ubar) / f := le_trans ha (min_le_right _ _)
    have h4 : lo - ubar ≤ a * f := by rwa [le_div_iff_of_neg hf] at h3
    have h5 : a * f ≤ 0 := mul_nonpos_iff.mpr (Or.inl ⟨ha0, le_of_lt hf⟩)
    constructor <;> linarith

/-- Modelled from the spec: §4.3 step 4 — the pair coefficient is the
minimum of the two endpoint-derived coefficients, "symmetric, so both
endpoints see the same coefficient". -/
def alphaPair {n : Nat} (lo hi : Fin n → ℚ) (ubar F : Fin n → Fin n → ℚ)
    (i j : Fin n) : ℚ :=
  min (alphaEndpoint (lo i) (hi i) (ubar i j) (F i j))
      (alphaEndpoint (lo j) (hi j) (ubar j i) (F j i))

/-- The pair coefficient is symmetric in its endpoints. -/
theorem alphaPair_symm {n : Nat} (lo hi : Fin n → ℚ)
    (ubar F : Fin n → Fin n → ℚ) (i j : Fin n) :
    alphaPair lo hi ubar F i j = alphaPair lo hi ubar F j i :=
  min_comm _ _

/-- Modelled from the spec: the limited antidiffusive contribution
`α_ij · F_ij` of the ordered pair `(i, j)` (§4.3 steps 3-5). -/
def limitedContribution {n : Nat} (lo hi : Fin n → ℚ)
    (ubar raw : Fin n → Fin n → ℚ) (i j : Fin n) : ℚ :=
  alphaPair lo hi ubar (antidiffFlux raw) i j * antidiffFlux raw i j

/-- The limited contribution is skew-symmetric in its pair. -/
theorem limitedContribution_skew {n : Nat} (lo hi : Fin n → ℚ)
    (ubar raw : Fin n → Fin n → ℚ) (i j : Fin n) :
    limitedContribution lo hi ubar raw i j
      = -limitedContribution lo hi ubar raw j i := by
  unfold limitedContribution
  rw [alphaPair_symm, antidiffFlux_antisymm raw i j, mul_neg]

/-- C3: for every MCL evaluation — any bounds, bar states and raw
high-minus-low fluxes — the limited antidiffusive contributions cancel
exactly: `α_ij·F_ij + α_ji·F_ji = 0` for every pair, and their sum over all
ordered pairs is exactly zero, because `F_ij = -F_ji` by construction and
`α_ij = α_ji` by symmetry of the pair coefficient; the limiter never changes
total mass. -/
theorem mcl_limited_antidiffusion_conserves {n : Nat} (lo hi : Fin n → ℚ)
    (ubar raw : Fin n → Fin n → ℚ) :
    (∀ i j : Fin n, limitedContribution lo hi ubar raw i j
        + limitedContribution lo hi ubar raw j i = 0)
    ∧ ∑ i : Fin n, ∑ j : Fin n, limitedContribution lo hi ubar raw i j = 0 := by
  refine ⟨fun i j => by rw [limitedContribution_skew lo hi ubar raw i j]; ring, ?_⟩
  have hrw : (∑ i : Fin n, ∑ j : Fin n, limitedContribution lo hi ubar raw i j)
      = -∑ i : Fin n, ∑ j : Fin n, limitedContribution lo hi ubar raw j i := by
    rw [← Finset.sum_neg_distrib]
    refine Finset.sum_congr rfl fun i _ => ?_
    rw [← Finset.sum_neg_distrib]
    exact Finset.sum_congr rfl fun j _ => limitedContribution_skew lo hi ubar raw i j
  have hcomm : (∑ i : Fin n, ∑ j : Fin n, limitedContribution lo hi ubar raw j i)
      = ∑ i : Fin n, ∑ j : Fin n, limitedContribution lo hi ubar raw i j :=
    Finset.sum_comm
  rw [hcomm] at hrw
  linarith

/-- Modelled from the spec: §4.2's bounds refresh — the lower bound of dof i
starts as `u_i` itself and expands by min over the stencil neighbors. -/
def bndLow {n : Nat} (stencil : Fin n → Finset (Fin n)) (u : Fin n → ℚ)
    (i : Fin n) : ℚ :=
  (insert i (stencil i)).inf' (Finset.insert_nonempty i (stencil i)) u

/-- Modelled from the spec: §4.2's bounds refresh — the upper bound of dof i
starts as `u_i` itself and expands by max over the stencil neighbors. -/
def bndHigh {n : Nat} (stencil : Fin n → Finset (Fin n)) (u : Fin n → ℚ)
    (i : Fin n) : ℚ :=
  (insert i (stencil i)).sup' (Finset.insert_nonempty i (stencil i)) u

/-- Modelled from the spec: one forward-Euler MCL update of dof i
(§4.3 steps 2-5, with §9's open limiter form chosen as the bar-state convex
decomposition): a convex combination over the stencil of the low-order bar
states `ubar_ij` plus the limited antidiffusive flux share of each pair,
with the pair coefficient of §4.3 step 4 computed against the §4.2 bounds of
the current state. -/
def mclEulerUpdate {n : Nat} (stencil : Fin n → Finset (Fin n))
    (lam ubar raw : Fin n → Fin n → ℚ) (u : Fin n → ℚ) (i : Fin n) : ℚ :=
  ∑ j ∈ stencil i, lam i j *
    (ubar i j + alphaPair (bndLow stencil u) (bndHigh stencil u) ubar
        (antidiffFlux raw) i j * antidiffFlux raw i j)

/-- Each per-dof lower bound dominates the global minimum of the state, and
each per-dof upper bound is dominated by the global maximum. -/
theorem bnd_within_global {n : Nat} (stencil : Fin n → Finset (Fin n))
    (u : Fin n → ℚ) (i : Fin n) :
    Finset.univ.inf' ⟨i, Finset.mem_univ i⟩ u ≤ bndLow stencil u i
    ∧ bndHigh stencil u i ≤ Finset.univ.sup' ⟨i, Finset.mem_univ i⟩ u := by
  constructor
  · obtain ⟨k, hk, hkeq⟩ := Finset.exists_mem_eq_inf'
      (Finset.insert_nonempty i (stencil i)) u
    rw [bndLow, hkeq]
    exact Finset.inf'_le u (Finset.mem_univ k)
  · obtain ⟨k, hk, hkeq⟩ := Finset.exists_mem_eq_sup'
      (Finset.insert_nonempty i (stencil i)) u
    rw [bndHigh, hkeq]
    exact Finset.le_sup' u (Finset.mem_univ k)

/-- C4: under the low-order CFL guarantee — nonnegative convex weights
summing to one and every bar state within its endpoint's §4.2 bounds from
the current state — the limited forward-Euler MCL update of every dof stays
within its per-dof bounds `[m_i, M_i]`, and hence within the global minimum
and maximum of the current state (for one step from the initial data, the
min and max of the run's initial data). -/
theorem mclEulerUpdate_within_bounds {n : Nat}
    (stencil : Fin n → Finset (Fin n)) (lam ubar raw : Fin n → Fin n → ℚ)
    (u : Fin n → ℚ) (i : Fin n)
    (hlam0 : ∀ j ∈ stencil i, 0 ≤ lam i j)
    (hlam1 : ∑ j ∈ stencil i, lam i j = 1)
    (hbar : ∀ a b : Fin n,
      bndLow stencil u a ≤ ubar a b ∧ ubar a b ≤ bndHigh stencil u a) :
    bndLow stencil u i ≤ mclEulerUpdate stencil lam ubar raw u i
    ∧ mclEulerUpdate stencil lam ubar raw u i ≤ bndHigh stencil u i
    ∧ Finset.univ.inf' ⟨i, Finset.mem_univ i⟩ u
        ≤ mclEulerUpdate stencil lam ubar raw u i
    ∧ mclEulerUpdate stencil lam ubar raw u i
        ≤ Finset.univ.sup' ⟨i, Finset.mem_univ i⟩ u := by
  have hterm : ∀ j ∈ stencil i,
      bndLow stencil u i
        ≤ ubar i j + alphaPair (bndLow stencil u) (bndHigh stencil u) ubar
            (antidiffFlux raw) i j * antidiffFlux raw i j
      ∧ ubar i j + alphaPair (bndLow stencil u) (bndHigh stencil u) ubar
            (antidiffFlux raw) i j * antidiffFlux raw i j
        ≤ bndHigh stencil u i := by
    intro j hj
    have hai := hbar i j
    have haj := hbar j i
    have h0 : 0 ≤ alphaPair (bndLow stencil u) (bndHigh stencil u) ubar
        (antidiffFlux raw) i j :=
      le_min (alphaEndpoint_nonneg hai.1 hai.2)
        (alphaEndpoint_nonneg haj.1 haj.2)
    exact alphaEndpoint_keeps hai.1 hai.2 h0 (min_le_left _ _)
  have hlow : bndLow stencil u i ≤ mclEulerUpdate stencil lam ubar raw u i := by
    have hsum : ∑ j ∈ stencil i, lam i j * bndLow stencil u i
        ≤ mclEulerUpdate stencil lam ubar raw u i :=
      Finset.sum_le_sum fun j hj =>
        mul_le_mul_of_nonneg_left (hterm j hj).1 (hlam0 j hj)
    calc bndLow stencil u i
        = (∑ j ∈ stencil i, lam i j) * bndLow stencil u i := by
          rw [hlam1, one_mul]
      _ = ∑ j ∈ stencil i, lam i j * bndLow stencil u i :=
          Finset.sum_mul _ _ _
      _ ≤ mclEulerUpdate stencil lam ubar raw u i := hsum
  have hhigh : mclEulerUpdate stencil lam ubar raw u i ≤ bndHigh stencil u i := by
    have hsum : mclEulerUpdate stencil lam ubar raw u i
        ≤ ∑ j ∈ stencil i, lam i j * bndHigh stencil u i :=
      Finset.sum_le_sum fun j hj =>
        mul_le_mul_of_nonneg_left (hterm j hj).2 (hlam0 j hj)
    calc mclEulerUpdate stencil lam ubar raw u i
        ≤ ∑ j ∈ stencil i, lam i j * bndHigh stencil u i := hsum
      _ = (∑ j ∈ stencil i, lam i j) * bndHigh stencil u i :=
          (Finset.sum_mul _ _ _).symm
      _ = bndHigh stencil u i := by rw [hlam1, one_mul]
  exact ⟨hlow, hhigh,
    le_trans (bnd_within_global stencil u i).1 hlow,
    le_trans hhigh (bnd_within_global stencil u i).2⟩

/-- A concrete two-dof stencil: each dof's only neighbor is the other. -/
def cexStencil : Fin 2 → Finset (Fin 2) :=
  fun i => if i = 0 then {1} else {0}

/-- A concrete discontinuous state: values 0 and 1. -/
def cexU : Fin 2 → ℚ := fun i => if i = 0 then 0 else 1

/-- Concrete convex weights: the single neighbor carries weight one. -/
def cexLam : Fin 2 → Fin 2 → ℚ := fun _ _ => 1

/-- Concrete bar states: arithmetic means of the pair values. -/
def cexUbar : Fin 2 → Fin 2 → ℚ := fun a b => (cexU a + cexU b) / 2

/-- A concrete raw antidiffusive flux, large enough to need limiting. -/
def cexRaw : Fin 2 → Fin 2 → ℚ := fun _ _ => 2

/-- The concrete weights are nonnegative on the stencil of dof 0. -/
theorem cexLamNonneg : ∀ j ∈ cexStencil 0, (0 : ℚ) ≤ cexLam 0 j := by
  intro j hj
  norm_num [cexLam]

/-- The concrete weights sum to one on the stencil of dof 0. -/
theorem cexLamSum : ∑ j ∈ cexStencil 0, cexLam 0 j = 1 := by
  norm_num [cexStencil, cexLam]

/-- Every concrete bar state lies within its endpoint's bounds. -/
theorem cexBarInBounds : ∀ a b : Fin 2,
    bndLow cexStencil cexU a ≤ cexUbar a b
    ∧ cexUbar a b ≤ bndHigh cexStencil cexU a := by
  intro a b
  fin_cases a <;> fin_cases b <;>
    norm_num [bndLow, bndHigh, cexStencil, cexU, cexUbar,
      Finset.inf'_insert, Finset.sup'_insert]

/-- Witness for C4 at the concrete two-dof instance. -/
theorem mclEulerUpdate_within_bounds_witness :
    bndLow cexStencil cexU 0
      ≤ mclEulerUpdate cexStencil cexLam cexUbar cexRaw cexU 0
    ∧ mclEulerUpdate cexStencil cexLam cexUbar cexRaw cexU 0
      ≤ bndHigh cexStencil cexU 0
    ∧ Finset.univ.inf' ⟨0, Finset.mem_univ 0⟩ cexU
      ≤ mclEulerUpdate cexStencil cexLam cexUbar cexRaw cexU 0
    ∧ mclEulerUpdate cexStencil cexLam cexUbar cexRaw cexU 0
      ≤ Finset.univ.sup' ⟨0, Finset.mem_univ 0⟩ cexU :=
  mclEulerUpdate_within_bounds cexStencil cexLam cexUbar cexRaw cexU 0
    cexLamNonneg cexLamSum cexBarInBounds

end HypSys
